import Mathlib

/-!
Verification of the Cross-Section Consistency Analyzer
(`consistency_model.py`), shallowly embedded in Lean 4.

Modelling conventions:
* Python floats are modelled as `ℚ` with exact decimal arithmetic.  The
  source stringifies converted floats (`str(convert_to_number(n))`) and
  compares string sets; since `str` is injective on floats this is the
  same as comparing the value sets, which we model as `Finset ℚ`.
* External collaborators are parameters: the sentence tokenizer
  (`nltk.sent_tokenize`) is `seg : String → List String`, the WordNet
  synonym lookup (`get_synonyms`) is `syn : String → List String`, and
  the NLI pipeline is `orc : String → Option (String × ℚ)` taking the
  combined input string and returning `none` exactly when the call
  raises an exception.
* Python string operations are modelled on `List Char`
  (in this toolchain `String` is a structure wrapping `List Char`).
-/

namespace ConsistencyModel

/-! ## Python string primitives -/

/-- Python's substring prefix test on character lists. -/
def listPrefixOf : List Char → List Char → Bool
  | [], _ => true
  | _ :: _, [] => false
  | p :: ps, c :: cs => p == c && listPrefixOf ps cs

/-- Python's `pat in hay` substring test on character lists. -/
def listContains (pat : List Char) : List Char → Bool
  | [] => listPrefixOf pat []
  | c :: cs => listPrefixOf pat (c :: cs) || listContains pat cs

/-- Python's `pat in hay` on strings. -/
def strContains (hay pat : String) : Bool :=
  listContains pat.data hay.data

/-- `pre` is a prefix of `s`, on strings. -/
def strPrefixOf (pre s : String) : Bool :=
  listPrefixOf pre.data s.data

/-- `str.strip` on character lists. -/
def stripChars (cs : List Char) : List Char :=
  ((cs.dropWhile Char.isWhitespace).reverse.dropWhile Char.isWhitespace).reverse

/-- Python `str.lower` (ASCII fragment, which covers every term the
program lowercases). -/
def pyLower (s : String) : String :=
  String.mk (s.toList.map Char.toLower)

/-- Python `str.strip`. -/
def pyStrip (s : String) : String :=
  String.mk (stripChars s.toList)

/-- Python `sep.join(lines)`. -/
def pyJoin (sep : String) : List String → String
  | [] => ""
  | [x] => x
  | x :: y :: xs => x ++ sep ++ pyJoin sep (y :: xs)

/-! ## Exact decimal numbers

The values the program manipulates are Python floats, but every value
it can actually produce is a decimal (digit strings, optionally divided
by a power of ten).  We represent them exactly as `m / 10 ^ e`; this is
the idealisation stated at the top of the file.  All operations below
are structurally recursive so that concrete runs reduce in the kernel
(`ℚ` arithmetic does not, because of `Nat.gcd`). -/

/-- An exact decimal `m / 10 ^ e`. -/
structure Dec where
  m : ℤ
  e : ℕ
deriving DecidableEq, Repr

/-- Rational value of a `Dec`. -/
def Dec.val (d : Dec) : ℚ := (d.m : ℚ) / 10 ^ d.e

/-- Embed a natural number. -/
def Dec.ofNat (n : ℕ) : Dec := ⟨n, 0⟩

/-- Exact addition. -/
def Dec.add (a b : Dec) : Dec := ⟨a.m * 10 ^ b.e + b.m * 10 ^ a.e, a.e + b.e⟩

/-- Negation. -/
def Dec.neg (a : Dec) : Dec := ⟨-a.m, a.e⟩

/-- Exact division by `10 ^ k`. -/
def Dec.divPow10 (a : Dec) (k : ℕ) : Dec := ⟨a.m, a.e + k⟩

/-- Exact multiplication by `10 ^ k`. -/
def Dec.mulPow10 (a : Dec) (k : ℕ) : Dec := ⟨a.m * 10 ^ k, a.e⟩

/-- Value equality (Python `==` on the underlying floats, which is also
what equality of their `str` images tests). -/
def Dec.beq (a b : Dec) : Bool := a.m * 10 ^ b.e == b.m * 10 ^ a.e

theorem Dec.beq_iff_val (a b : Dec) : Dec.beq a b = true ↔ a.val = b.val := by
  have h10 : ((10 : ℚ) ^ a.e) ≠ 0 := by positivity
  have h10b : ((10 : ℚ) ^ b.e) ≠ 0 := by positivity
  simp only [Dec.beq, Dec.val, beq_iff_eq]
  rw [div_eq_div_iff h10 h10b]
  constructor
  · intro h
    have := congrArg (fun z : ℤ => (z : ℚ)) h
    push_cast at this
    exact this
  · intro h
    have : ((a.m * 10 ^ b.e : ℤ) : ℚ) = ((b.m * 10 ^ a.e : ℤ) : ℚ) := by push_cast; push_cast at h; linarith
    exact_mod_cast this

/-! ## Numeric normalizer (`convert_to_number`) -/

/-- The `number_words` table of `convert_to_number`. -/
def number_words : List (String × Dec) :=
  [("zero", ⟨0, 0⟩), ("one", ⟨1, 0⟩), ("two", ⟨2, 0⟩), ("three", ⟨3, 0⟩),
   ("four", ⟨4, 0⟩), ("five", ⟨5, 0⟩), ("six", ⟨6, 0⟩), ("seven", ⟨7, 0⟩),
   ("eight", ⟨8, 0⟩), ("nine", ⟨9, 0⟩), ("ten", ⟨10, 0⟩),
   ("hundred", ⟨100, 0⟩), ("thousand", ⟨1000, 0⟩), ("million", ⟨1000000, 0⟩),
   ("billion", ⟨1000000000, 0⟩)]

/-- Value of a digit string, most significant digit first. -/
def digitsToNat (ds : List Char) : ℕ :=
  ds.foldl (fun a c => 10 * a + (c.toNat - 48)) 0

/-- Python `float()` on the decimal/scientific fragment
`[+-]? digits [. digits?] [eE [+-]? digits]` (with at least one
mantissa digit).  The special forms `inf`/`nan` and underscore
separators, which Python also accepts, cannot arise from the extraction
patterns or the concrete inputs of this development and are left out. -/
def pyFloatOfChars? (input : List Char) : Option Dec :=
  let cs := stripChars input
  let isNeg := cs.head? == some '-'
  let cs1 := if cs.head? == some '+' || cs.head? == some '-' then cs.tail else cs
  let ip := cs1.takeWhile Char.isDigit
  let r1 := cs1.dropWhile Char.isDigit
  let hasDot := r1.head? == some '.'
  let fp := if hasDot then r1.tail.takeWhile Char.isDigit else []
  let r2 := if hasDot then r1.tail.dropWhile Char.isDigit else r1
  if ip.isEmpty && fp.isEmpty then none
  else
    let mant : Dec := (Dec.ofNat (digitsToNat ip)).add ⟨digitsToNat fp, fp.length⟩
    let signed : Dec → Dec := fun d => if isNeg then d.neg else d
    match r2 with
    | [] => some (signed mant)
    | e :: r3 =>
      if e == 'e' || e == 'E' then
        let eNeg := r3.head? == some '-'
        let r4 := if r3.head? == some '+' || r3.head? == some '-' then r3.tail else r3
        let ed := r4.takeWhile Char.isDigit
        let r5 := r4.dropWhile Char.isDigit
        if ed.isEmpty || !r5.isEmpty then none
        else some (signed (if eNeg then mant.divPow10 (digitsToNat ed)
                           else mant.mulPow10 (digitsToNat ed)))
      else none

/-- `convert_to_number`: lowercase and strip, look the text up in
`number_words`, otherwise delete currency symbols and thousands commas,
divide by 100 when a percent sign is present, and parse as a float;
`None` on parse failure. -/
def convert_to_number (text : String) : Option Dec :=
  let t := pyStrip (pyLower text)
  match number_words.find? (fun p => p.1 == t) with
  | some p => some p.2
  | none =>
    let t2 := t.toList.filter (fun c => !(c == '$' || c == '€' || c == '£' || c == ','))
    if t2.contains '%' then
      (pyFloatOfChars? (t2.filter (fun c => !(c == '%')))).map (fun d => d.divPow10 2)
    else
      pyFloatOfChars? t2

/-! ## Numeric extraction (the five regex patterns)

`detect_numeric_mismatch` runs `re.findall` with five patterns over each
sentence.  Each pattern starts with a digit or a currency symbol and its
optional parts are followed only by optional material, so Python's
backtracking engine coincides with greedy maximal-munch matching; the
matchers below implement the patterns directly.  `scanWith` is
`re.findall`: leftmost match wins, scanning resumes after each match. -/

/-- Greedy `(?:,\d{3})*`: as many `,ddd` groups as possible. -/
def commaGroups : List Char → List Char × List Char
  | ',' :: a :: b :: c :: rest =>
    if a.isDigit && b.isDigit && c.isDigit then
      let p := commaGroups rest
      (',' :: a :: b :: c :: p.1, p.2)
    else ([], ',' :: a :: b :: c :: rest)
  | cs => ([], cs)

/-- Greedy `(?:\.\d+)?`: a dot followed by at least one digit, if present. -/
def fracPart : List Char → List Char × List Char
  | '.' :: rest =>
    let ds := rest.takeWhile Char.isDigit
    if ds.isEmpty then ([], '.' :: rest)
    else ('.' :: ds, rest.dropWhile Char.isDigit)
  | cs => ([], cs)

/-- Pattern `\d+(?:,\d{3})*(?:\.\d+)?` anchored at the head. -/
def tryPlain (cs : List Char) : Option (List Char) :=
  let ds := cs.takeWhile Char.isDigit
  if ds.isEmpty then none
  else
    let r1 := cs.dropWhile Char.isDigit
    let g := commaGroups r1
    let f := fracPart g.2
    some (ds ++ g.1 ++ f.1)

/-- Pattern `\d+(?:\.\d+)?%` anchored at the head. -/
def tryPercent (cs : List Char) : Option (List Char) :=
  let ds := cs.takeWhile Char.isDigit
  if ds.isEmpty then none
  else
    let r1 := cs.dropWhile Char.isDigit
    let f := fracPart r1
    match f.2 with
    | '%' :: _ => some (ds ++ f.1 ++ ['%'])
    | _ => none

/-- Patterns `\$\d+(?:,\d{3})*(?:\.\d+)?` (and the euro and pound
variants) anchored at the head. -/
def tryCurrency (sym : Char) : List Char → Option (List Char)
  | c :: rest => if c == sym then (tryPlain rest).map (fun mt => c :: mt) else none
  | [] => none

/-- Fuel-indexed body of `re.findall` for one anchored matcher: try each
position left to right, emit a match and resume right after it.  Every
matcher above returns at least one character, so `cs.drop (mt.length - 1)`
is the input minus the matched text.  The fuel only forces structural
recursion; `scanWith` supplies enough of it, and `scanAux_congr` shows
any sufficient amount gives the same answer. -/
def scanAux (mtch : List Char → Option (List Char)) : ℕ → List Char → List (List Char)
  | 0, _ => []
  | _ + 1, [] => []
  | fuel + 1, c :: cs =>
    match mtch (c :: cs) with
    | some mt => mt :: scanAux mtch fuel (cs.drop (mt.length - 1))
    | none => scanAux mtch fuel cs

/-- `re.findall` for one anchored matcher. -/
def scanWith (mtch : List Char → Option (List Char)) (cs : List Char) : List (List Char) :=
  scanAux mtch cs.length cs

theorem scanAux_congr (mtch : List Char → Option (List Char)) :
    ∀ (f g : ℕ) (cs : List Char), cs.length ≤ f → cs.length ≤ g →
      scanAux mtch f cs = scanAux mtch g cs := by
  intro f
  induction f with
  | zero =>
    intro g cs hf _
    have : cs = [] := List.length_eq_zero.mp (Nat.le_zero.mp hf)
    subst this
    cases g <;> rfl
  | succ f ih =>
    intro g cs hf hg
    cases cs with
    | nil => cases g <;> rfl
    | cons c cs =>
      cases g with
      | zero => simp at hg
      | succ g =>
        simp only [scanAux]
        simp only [List.length_cons] at hf hg
        cases h : mtch (c :: cs) with
        | none => dsimp only; rw [ih g cs (by omega) (by omega)]
        | some mt =>
          have hd : (cs.drop (mt.length - 1)).length ≤ cs.length := by
            simp [List.length_drop]
          dsimp only
          rw [ih g _ (by omega) (by omega)]

theorem scanWith_nil (mtch : List Char → Option (List Char)) : scanWith mtch [] = [] := rfl

theorem scanWith_cons (mtch : List Char → Option (List Char)) (c : Char) (cs : List Char) :
    scanWith mtch (c :: cs) =
      match mtch (c :: cs) with
      | some mt => mt :: scanWith mtch (cs.drop (mt.length - 1))
      | none => scanWith mtch cs := by
  unfold scanWith
  simp only [List.length_cons, scanAux]
  cases h : mtch (c :: cs) with
  | none => exact scanAux_congr mtch cs.length cs.length cs (le_refl _) (le_refl _)
  | some mt =>
    have hd : (cs.drop (mt.length - 1)).length ≤ cs.length := by
      simp [List.length_drop]
    dsimp only
    rw [scanAux_congr mtch cs.length _ _ (by omega) (le_refl _)]

/-- The `patterns` list of `detect_numeric_mismatch`, in source order. -/
def numPatterns : List (List Char → Option (List Char)) :=
  [tryPlain, tryPercent, tryCurrency '$', tryCurrency '€', tryCurrency '£']

/-- All numeric substrings of a sentence: `re.findall` of every pattern,
concatenated in pattern order (the source `extend`s one list). -/
def extract_numbers (s : String) : List String :=
  numPatterns.flatMap (fun mtch => (scanWith mtch s.toList).map String.mk)

/-- The converted numeric list of one sentence
(`[convert_to_number(n) for n in nums if convert_to_number(n) is not None]`). -/
def numsConv (s : String) : List Dec :=
  (extract_numbers s).filterMap convert_to_number

/-! ## Rendering of converted values (for the reason strings)

The source embeds `f"{set(nums1_conv)} vs {set(nums2_conv)}"` in the
mismatch reason, where the set holds the `str` images of the converted
floats.  Python renders a set in hash order, which is not a stable
contract (it varies with `PYTHONHASHSEED`); we render the members in
first-occurrence order.  No theorem below depends on the tail of a
reason string after the domain name, only on this prefix and on the
fixed full no-mismatch strings. -/

/-- Strip trailing decimal zeros from `m / 10 ^ e`. -/
def canonAux : ℤ → ℕ → ℤ × ℕ
  | m, 0 => (m, 0)
  | m, e + 1 => if m % 10 == 0 then canonAux (m / 10) e else (m, e + 1)

/-- The canonical form `str` prints. -/
def Dec.canon (d : Dec) : Dec :=
  let p := canonAux d.m d.e
  ⟨p.1, p.2⟩

/-- Python `str()` of the float value of a `Dec` (plain positional
notation; the scientific-notation regimes of `str` are unreachable
here). -/
def pyFloatRepr (d : Dec) : String :=
  let c := d.canon
  let digits := (c.m.natAbs).repr
  let padded :=
    if digits.length ≤ c.e then
      String.mk (List.replicate (c.e + 1 - digits.length) '0') ++ digits
    else digits
  let ip := String.mk (padded.toList.take (padded.toList.length - c.e))
  let fp := if c.e = 0 then "0" else String.mk (padded.toList.drop (padded.toList.length - c.e))
  (if c.m < 0 then "-" else "") ++ ip ++ "." ++ fp

/-- Keep the first occurrence of each value (the content of the Python
set; its display order is hash-dependent, see above). -/
def dedupVals : List Dec → List Dec
  | [] => []
  | x :: xs => x :: (dedupVals xs).filter (fun y => !(Dec.beq x y))

/-- Rendering of `set(nums_conv)`. -/
def setRepr (l : List Dec) : String :=
  "\x7b" ++ pyJoin ", " ((dedupVals l).map (fun d => "\x27" ++ pyFloatRepr d ++ "\x27")) ++ "\x7d"

/-! ## Semantic domains (`CONTEXTS` and `initialize_contexts`) -/

/-- One entry of the `CONTEXTS` dictionary. -/
structure SemContext where
  name : String
  units : List String
  keywords : List String
  synonyms : List String
deriving DecidableEq, Repr

/-- `CONTEXTS` as written in the source, before synonym population:
financial, temporal, performance, in this (insertion = iteration)
order, each with an empty synonym set. -/
def base_contexts : List SemContext :=
  [⟨"financial", ["$", "USD", "PKR", "€", "£"],
    ["budget", "cost", "price", "total", "expense", "fund", "payment",
     "revenue", "profit", "loss"], []⟩,
   ⟨"temporal", ["month", "day", "year", "week", "quarter"],
    ["deadline", "timeline", "duration", "schedule", "plan", "milestone"], []⟩,
   ⟨"performance", ["%", "percent"],
    ["KPI", "metric", "performance", "target", "goal", "achievement"], []⟩]

/-- Populate one domain's synonym set from the lexical database `syn`
(the model of WordNet `get_synonyms`, whose results are lowercase lemma
names; `syn` may return `[]`, the degraded mode). -/
def with_synonyms (syn : String → List String) (c : SemContext) : SemContext :=
  { c with synonyms := c.keywords.flatMap syn }

/-- `initialize_contexts`: populate every domain once. -/
def init_contexts (syn : String → List String) : List SemContext :=
  base_contexts.map (with_synonyms syn)

/-- A sentence "has context" for a domain: some unit, keyword or synonym
occurs as a case-insensitive substring (`term.lower() in sent.lower()`). -/
def hasContext (c : SemContext) (s : String) : Bool :=
  (c.units ++ c.keywords ++ c.synonyms).any (fun t => strContains (pyLower s) (pyLower t))

/-- Equality of the value sets of the two converted lists
(`set(nums1_conv) == set(nums2_conv)`; the source compares sets of the
`str` images, and `str` is injective on values). -/
def valueSetEq (n1 n2 : List Dec) : Bool :=
  n1.all (fun x => n2.any (fun y => Dec.beq x y)) &&
  n2.all (fun y => n1.any (fun x => Dec.beq x y))

/-- The per-domain trigger of the detection loop:
`sent1_has_context and sent2_has_context and set(nums1_conv) != set(nums2_conv)`. -/
def contextTrigger (c : SemContext) (s1 s2 : String) (n1 n2 : List Dec) : Bool :=
  hasContext c s1 && hasContext c s2 && !(valueSetEq n1 n2)

/-! ## Numeric mismatch detector (`detect_numeric_mismatch`) -/

/-- The `{"mismatch": ..., "reason": ...}` dictionary. -/
structure NumericComparison where
  mismatch : Bool
  reason : String
deriving DecidableEq, Repr

/-- The `for context_name, context_data in CONTEXTS.items()` loop. -/
def detectLoop (s1 s2 : String) (n1 n2 : List Dec) : List SemContext → NumericComparison
  | [] => ⟨false, "No contextual numeric mismatch detected"⟩
  | c :: rest =>
    if contextTrigger c s1 s2 n1 n2 then
      ⟨true, "Numeric mismatch in " ++ c.name ++ " context: " ++ setRepr n1 ++
             " vs " ++ setRepr n2⟩
    else detectLoop s1 s2 n1 n2 rest

/-- `detect_numeric_mismatch` over a populated `CONTEXTS` list. -/
def detect_numeric_mismatch (ctxs : List SemContext) (s1 s2 : String) : NumericComparison :=
  let n1 := numsConv s1
  let n2 := numsConv s2
  if n1.isEmpty || n2.isEmpty then ⟨false, "No numbers to compare"⟩
  else detectLoop s1 s2 n1 n2 ctxs

/-! ## Pairwise consistency (`check_consistency`)

The NLI oracle is `orc : String → Option (String × ℚ)`, applied to the
combined input; `some (label, score)` is a successful classification and
`none` means the call raised.  Everything in the source's `try` block
after the oracle call (and the already-computed numeric result) is
discarded when the call raises, which the `match` mirrors. -/

/-- Verdict enumeration; the source's display strings are
`"❌ Numeric Mismatch"`, `"❌ Logical Contradiction"`, `"✅ Consistent"`,
`"⚪ Neutral"` and `"⚠️ Error: {e}"` (the last one carries the exception
text). -/
inductive Verdict where
  | NUMERIC_MISMATCH
  | LOGICAL_CONTRADICTION
  | CONSISTENT
  | NEUTRAL
  | ERROR
deriving DecidableEq, Repr

/-- The response dictionary of `check_consistency`. -/
structure PairResult where
  sentence1 : String
  sentence2 : String
  confidence : ℚ
  numeric_analysis : NumericComparison
  verdict : Verdict
  label : String
  suggestion : String
deriving DecidableEq, Repr

/-- `f"{sentence1} </s> {sentence2}"`. -/
def combined_input (s1 s2 : String) : String :=
  s1 ++ " </s> " ++ s2

/-- `round(score, 3)` (ties differ from Python's bankers rounding on the
binary value; no claim depends on tie behaviour). -/
def round3 (q : ℚ) : ℚ := (round (q * 1000) : ℤ) / 1000

/-- `check_consistency`. -/
def check_consistency (ctxs : List SemContext) (orc : String → Option (String × ℚ))
    (s1 s2 : String) : PairResult :=
  let numeric := detect_numeric_mismatch ctxs s1 s2
  match orc (combined_input s1 s2) with
  | none =>
    { sentence1 := s1, sentence2 := s2, confidence := 0,
      numeric_analysis := ⟨false, "Error in analysis"⟩,
      verdict := Verdict.ERROR, label := "ERROR",
      suggestion := "Check input formatting or model initialization." }
  | some ls =>
    let conf := round3 ls.2
    if numeric.mismatch then
      { sentence1 := s1, sentence2 := s2, confidence := conf,
        numeric_analysis := numeric,
        verdict := Verdict.NUMERIC_MISMATCH, label := "CONTRADICTION",
        suggestion := "Inconsistency detected: " ++ numeric.reason }
    else if ls.1 == "CONTRADICTION" then
      { sentence1 := s1, sentence2 := s2, confidence := conf,
        numeric_analysis := numeric,
        verdict := Verdict.LOGICAL_CONTRADICTION, label := "CONTRADICTION",
        suggestion := "These statements express conflicting information." }
    else if ls.1 == "ENTAILMENT" then
      { sentence1 := s1, sentence2 := s2, confidence := conf,
        numeric_analysis := numeric,
        verdict := Verdict.CONSISTENT, label := "ENTAILMENT",
        suggestion := "Statements are logically and numerically consistent." }
    else
      { sentence1 := s1, sentence2 := s2, confidence := conf,
        numeric_analysis := numeric,
        verdict := Verdict.NEUTRAL, label := "NEUTRAL",
        suggestion := "No clear logical relation or numeric inconsistency detected." }

/-! ## Cross-section analysis (`analyze_cross_section`) -/

/-- `split_into_sentences`: external tokenizer, then strip, then drop
empties. -/
def split_into_sentences (seg : String → List String) (text : String) : List String :=
  ((seg text).map pyStrip).filter (fun s => !s.isEmpty)

/-- `itertools.combinations(sentences, 2)`. -/
def pairsComb {α : Type} : List α → List (α × α)
  | [] => []
  | x :: xs => (xs.map (fun y => (x, y))) ++ pairsComb xs

/-- The contradiction test of the collection loop:
`result["label"] == "CONTRADICTION" or result["numeric_analysis"]["mismatch"]`. -/
def contradictionFlag (r : PairResult) : Bool :=
  r.label == "CONTRADICTION" || r.numeric_analysis.mismatch

/-- One numeric-issue line of the report. -/
def numericIssueLine (r : PairResult) : String :=
  "- " ++ r.numeric_analysis.reason ++ "\n  \"" ++ r.sentence1 ++
  "\" vs.\n  \"" ++ r.sentence2 ++ "\""

/-- One logical-issue line of the report. -/
def logicalIssueLine (r : PairResult) : String :=
  "- " ++ r.suggestion ++ "\n  \"" ++ r.sentence1 ++
  "\" vs.\n  \"" ++ r.sentence2 ++ "\""

/-- The report rendering of `analyze_cross_section` from the collected
contradictions. -/
def buildSummary (contradictions : List PairResult) : String :=
  if contradictions.isEmpty then
    "✅ No inconsistencies detected; the document aligns logically."
  else
    let numeric_issues := contradictions.filter (fun c => c.numeric_analysis.mismatch)
    let logical_issues := contradictions.filter
      (fun c => c.label == "CONTRADICTION" && !c.numeric_analysis.mismatch)
    let lines := ["⚠️ Inconsistencies detected:"]
      ++ (if numeric_issues.isEmpty then []
          else "\n🔢 Numeric Inconsistencies:" :: numeric_issues.map numericIssueLine)
      ++ (if logical_issues.isEmpty then []
          else "\n❌ Logical Contradictions:" :: logical_issues.map logicalIssueLine)
    pyJoin "\n" lines

/-- The returned dictionary. -/
structure AnalysisOut where
  consistency_results : List PairResult
  issues_report : String
deriving DecidableEq, Repr

/-- `analyze_cross_section`. -/
def analyze_cross_section (ctxs : List SemContext) (seg : String → List String)
    (orc : String → Option (String × ℚ)) (document_text : String) : AnalysisOut :=
  let sentences := split_into_sentences seg document_text
  if sentences.length < 2 then
    ⟨[], "ℹ️ Not enough text to check."⟩
  else
    let results := (pairsComb sentences).map (fun p => check_consistency ctxs orc p.1 p.2)
    let contradictions := results.filter contradictionFlag
    ⟨results, buildSummary contradictions⟩

/-! ## Spec-side definition and concrete collaborators -/

/-- The canonical combination order of §4.5 of the specification,
written from the spec's words: pairs `(i, j)` of indices with `i < j`,
`i` the outer, slower-varying index.  Compared against the source's
`itertools.combinations` enumeration in `pairsComb_eq_canonical`. -/
def canonicalCombinations (l : List String) : List (String × String) :=
  (List.range l.length).flatMap (fun i =>
    ((List.range l.length).filter (fun j => decide (i < j))).map
      (fun j => (l.getD i "", l.getD j "")))

/-- A lexical database with no synonyms (the degraded mode of §4.2). -/
def noSyn : String → List String := fun _ => []

/-- An entailment oracle whose every call raises. -/
def failOrc : String → Option (String × ℚ) := fun _ => none

/-- A deterministic oracle that always answers NEUTRAL. -/
def neutralOrc : String → Option (String × ℚ) := fun _ => some ("NEUTRAL", 1 / 2)

/-- A segmenter producing the two sentences of Scenario A. -/
def segTwo : String → List String := fun _ =>
  ["The budget is $5,000.", "The total budget is $6,000."]

/-- A segmenter producing no sentences. -/
def segNone : String → List String := fun _ => []

theorem map_getD_range (xs : List String) :
    (List.range xs.length).map (fun j => xs.getD j "") = xs := by
  induction xs with
  | nil => rfl
  | cons a as ih =>
    simp only [List.length_cons, List.range_succ_eq_map, List.map_cons,
               List.getD_cons_zero, List.map_map]
    show a :: List.map (fun j => as.getD j "") (List.range as.length) = a :: as
    rw [ih]

/-- The source's `itertools.combinations(sentences, 2)` enumerates the
index pairs `(i, j)`, `i < j`, in the canonical order of the spec. -/
theorem pairsComb_eq_canonical (l : List String) :
    pairsComb l = canonicalCombinations l := by
  induction l with
  | nil => rfl
  | cons x xs ih =>
    show xs.map (fun y => (x, y)) ++ pairsComb xs = _
    unfold canonicalCombinations
    rw [show (x :: xs).length = xs.length + 1 from rfl, List.range_succ_eq_map,
        List.flatMap_cons, List.flatMap_map]
    congr 1
    · have hfil : List.filter (fun j => decide (0 < j))
          (0 :: List.map Nat.succ (List.range xs.length)) =
          List.map Nat.succ (List.range xs.length) := by
        rw [List.filter_cons, List.filter_map]
        have h1 : ((fun j => decide (0 < j)) ∘ Nat.succ) = fun _ => true := by
          funext j
          simp
        rw [h1, List.filter_true]
        simp
      rw [hfil, List.map_map]
      have hcomp : ((fun j => ((x :: xs).getD 0 "", (x :: xs).getD j "")) ∘ Nat.succ) =
          ((fun y => (x, y)) ∘ (fun j => xs.getD j "")) := by
        funext j
        simp
      rw [hcomp, ← List.map_map, map_getD_range]
    · rw [ih]
      unfold canonicalCombinations
      refine congrArg _ (funext fun i => ?_)
      have hfil2 : List.filter (fun j => decide (i.succ < j))
          (0 :: List.map Nat.succ (List.range xs.length)) =
          List.map Nat.succ (List.filter (fun j => decide (i < j)) (List.range xs.length)) := by
        rw [List.filter_cons, List.filter_map]
        have h2 : ((fun j => decide (i.succ < j)) ∘ Nat.succ) = (fun j => decide (i < j)) := by
          funext j
          simp [Nat.succ_lt_succ_iff]
        rw [h2]
        simp
      rw [hfil2, List.map_map]
      refine congrArg (fun f => List.map f _) (funext fun j => ?_)
      simp

theorem pairsComb_length {α : Type} (l : List α) :
    2 * (pairsComb l).length = l.length * (l.length - 1) := by
  induction l with
  | nil => rfl
  | cons x xs ih =>
    simp only [pairsComb, List.length_append, List.length_map, List.length_cons]
    have hsplit : 2 * (xs.length + (pairsComb xs).length) =
        2 * xs.length + 2 * (pairsComb xs).length := by ring
    rw [hsplit, ih]
    cases h : xs.length with
    | zero => simp
    | succ k =>
      simp only [Nat.succ_sub_one]
      ring

/-- The state of one process run of the module: the populated
`CONTEXTS` dictionary built by `initialize_contexts` at import time.
`analyze_cross_section` only reads it (the function contains no global
writes), so a run returns the state unchanged. -/
def analyze_step (st : List SemContext) (seg : String → List String)
    (orc : String → Option (String × ℚ)) (text : String) : AnalysisOut × List SemContext :=
  (analyze_cross_section st seg orc text, st)

/-- A failing oracle call yields the fixed error record; the numeric
result computed earlier inside the `try` block is discarded and the
recorded numeric analysis is the fixed `"Error in analysis"` one. -/
theorem check_fail (ctxs : List SemContext) (s1 s2 : String) :
    check_consistency ctxs failOrc s1 s2 =
      ⟨s1, s2, 0, ⟨false, "Error in analysis"⟩, Verdict.ERROR, "ERROR",
       "Check input formatting or model initialization."⟩ := rfl

/-! ## Claim theorems -/

/-- C6 (confirmed): the numeric normalizer maps `"$1,200.50"` to
`1200.50`, `"45%"` to `0.45`, `"two"` to `2.0`, and returns no value
for `"not-a-number"`. -/
theorem convert_examples :
    (convert_to_number "$1,200.50").map Dec.val = some (2401 / 2 : ℚ) ∧
    (convert_to_number "45%").map Dec.val = some (9 / 20 : ℚ) ∧
    (convert_to_number "two").map Dec.val = some (2 : ℚ) ∧
    convert_to_number "not-a-number" = none := by
  refine ⟨?_, ?_, ?_, by decide⟩
  · rw [show convert_to_number "$1,200.50" = some ⟨120050, 2⟩ from by decide]
    simp [Dec.val]
    norm_num
  · rw [show convert_to_number "45%" = some ⟨45, 2⟩ from by decide]
    simp [Dec.val]
    norm_num
  · rw [show convert_to_number "two" = some ⟨2, 0⟩ from by decide]
    simp [Dec.val]

/-- C1 (corrected): the verdict classification of `check_consistency`.
When the oracle call succeeds, a numeric mismatch wins regardless of
the returned label, then CONTRADICTION, then ENTAILMENT, else NEUTRAL.
When the oracle call raises, the verdict is ERROR regardless of the
numeric detector — the claim's placement of ERROR after the numeric
check does not hold (see
`check_error_beats_numeric_counterexample`). -/
theorem check_verdict_classification (ctxs : List SemContext)
    (orc : String → Option (String × ℚ)) (s1 s2 : String) :
    (check_consistency ctxs orc s1 s2).verdict =
      match orc (combined_input s1 s2) with
      | none => Verdict.ERROR
      | some ls =>
        if (detect_numeric_mismatch ctxs s1 s2).mismatch then Verdict.NUMERIC_MISMATCH
        else if ls.1 == "CONTRADICTION" then Verdict.LOGICAL_CONTRADICTION
        else if ls.1 == "ENTAILMENT" then Verdict.CONSISTENT
        else Verdict.NEUTRAL := by
  unfold check_consistency
  cases h : orc (combined_input s1 s2) with
  | none => rfl
  | some ls =>
    dsimp only
    split_ifs <;> rfl

/-- C1 counterexample: a pair with a true numeric mismatch whose oracle
call raises is classified ERROR, not NUMERIC_MISMATCH. -/
theorem check_error_beats_numeric_counterexample :
    (detect_numeric_mismatch (init_contexts noSyn) "The budget is $5,000."
        "The total budget is $6,000.").mismatch = true ∧
    (check_consistency (init_contexts noSyn) failOrc "The budget is $5,000."
        "The total budget is $6,000.").verdict = Verdict.ERROR ∧
    Verdict.ERROR ≠ Verdict.NUMERIC_MISMATCH := by
  exact ⟨by decide, rfl, by decide⟩

/-- C2 (corrected): with an oracle that raises on every call, every
pair's result is the ERROR record (label ERROR, confidence 0.0, verdict
ERROR, numeric analysis overwritten to `mismatch = false`), the
contradictions subset is empty, and the issues report is always the
no-issues message (or the not-enough-text message) — it never reflects
numeric mismatches, contrary to the claim (see
`analyze_failing_oracle_counterexample`). -/
theorem analyze_failing_oracle (ctxs : List SemContext) (seg : String → List String)
    (text : String) :
    (∀ r ∈ (analyze_cross_section ctxs seg failOrc text).consistency_results,
        r.label = "ERROR" ∧ r.verdict = Verdict.ERROR ∧ r.confidence = 0 ∧
        r.numeric_analysis = ⟨false, "Error in analysis"⟩) ∧
    (analyze_cross_section ctxs seg failOrc text).consistency_results.filter
      contradictionFlag = [] ∧
    ((analyze_cross_section ctxs seg failOrc text).issues_report =
        "✅ No inconsistencies detected; the document aligns logically." ∨
     (analyze_cross_section ctxs seg failOrc text).issues_report =
        "ℹ️ Not enough text to check.") := by
  unfold analyze_cross_section
  by_cases h : (split_into_sentences seg text).length < 2
  · rw [if_pos h]
    exact ⟨by simp, rfl, Or.inr rfl⟩
  · rw [if_neg h]
    dsimp only
    have hfilter : ((pairsComb (split_into_sentences seg text)).map
        (fun p => check_consistency ctxs failOrc p.1 p.2)).filter contradictionFlag = [] := by
      rw [List.filter_eq_nil_iff]
      intro r hr
      rcases List.mem_map.mp hr with ⟨p, _, rfl⟩
      rw [check_fail]
      simp [contradictionFlag]
    refine ⟨?_, hfilter, Or.inl ?_⟩
    · intro r hr
      rcases List.mem_map.mp hr with ⟨p, _, rfl⟩
      rw [check_fail]
      exact ⟨rfl, rfl, rfl, rfl⟩
    · rw [hfilter]
      rfl

/-- C2 counterexample: Scenario A sentences have a true numeric
mismatch, yet with an always-raising oracle the issues report is the
no-issues message and carries no "Inconsistencies detected" marker. -/
theorem analyze_failing_oracle_counterexample :
    (detect_numeric_mismatch (init_contexts noSyn) "The budget is $5,000."
        "The total budget is $6,000.").mismatch = true ∧
    (analyze_cross_section (init_contexts noSyn) segTwo failOrc "doc").issues_report =
      "✅ No inconsistencies detected; the document aligns logically." ∧
    strContains (analyze_cross_section (init_contexts noSyn) segTwo failOrc "doc").issues_report
      "Inconsistencies detected" = false := by
  exact ⟨by decide, by decide, by decide⟩

/-- C2 witness: the amended theorem applied to a concrete two-sentence
segmentation. -/
theorem analyze_failing_oracle_witness :
    (analyze_cross_section (init_contexts noSyn) segTwo failOrc "doc").issues_report =
      "✅ No inconsistencies detected; the document aligns logically." :=
  ((analyze_failing_oracle (init_contexts noSyn) segTwo "doc").2.2).resolve_right (by decide)

/-- C7 (confirmed): with fewer than two segmented sentences,
`analyze_cross_section` returns the empty result list with the
informational message, which carries no issue marker.  The oracle
parameter is universally quantified and absent from the conclusion: no
oracle call influences this path. -/
theorem analyze_short_circuit (ctxs : List SemContext) (seg : String → List String)
    (orc : String → Option (String × ℚ)) (text : String)
    (h : (split_into_sentences seg text).length < 2) :
    analyze_cross_section ctxs seg orc text = ⟨[], "ℹ️ Not enough text to check."⟩ ∧
    strContains "ℹ️ Not enough text to check." "Inconsistencies detected" = false := by
  refine ⟨?_, by decide⟩
  unfold analyze_cross_section
  rw [if_pos h]

/-- C7 witness: the empty document with an empty segmentation. -/
theorem analyze_short_circuit_witness :
    analyze_cross_section (init_contexts noSyn) segNone failOrc "" =
      ⟨[], "ℹ️ Not enough text to check."⟩ ∧
    strContains "ℹ️ Not enough text to check." "Inconsistencies detected" = false :=
  analyze_short_circuit (init_contexts noSyn) segNone failOrc "" (by decide)

/-- C8 (confirmed): running the analysis twice on the same text with
the same collaborators and the synonym sets already initialized yields
identical outputs (confidences included): the second run starts from
the state the first run returns, and `analyze_cross_section` does not
write the state. -/
theorem analyze_idempotent (syn : String → List String) (seg : String → List String)
    (orc : String → Option (String × ℚ)) (text : String) :
    (analyze_step (init_contexts syn) seg orc text).1 =
      (analyze_step (analyze_step (init_contexts syn) seg orc text).2 seg orc text).1 := rfl

/-- C4 (confirmed): for a segmentation with at least two sentences the
results list enumerates exactly the canonical combinations, one
`check_consistency` result per unordered pair `(i, j)` with `i < j` in
slower-varying-`i` order, and its length is `n * (n - 1) / 2`. -/
theorem analyze_pair_enumeration (ctxs : List SemContext) (seg : String → List String)
    (orc : String → Option (String × ℚ)) (text : String)
    (h : 2 ≤ (split_into_sentences seg text).length) :
    (analyze_cross_section ctxs seg orc text).consistency_results =
      (canonicalCombinations (split_into_sentences seg text)).map
        (fun p => check_consistency ctxs orc p.1 p.2) ∧
    (analyze_cross_section ctxs seg orc text).consistency_results.length =
      (split_into_sentences seg text).length *
        ((split_into_sentences seg text).length - 1) / 2 := by
  have hn : ¬ ((split_into_sentences seg text).length < 2) := not_lt.mpr h
  unfold analyze_cross_section
  rw [if_neg hn]
  dsimp only
  constructor
  · rw [pairsComb_eq_canonical]
  · simp only [List.length_map]
    have hlen := pairsComb_length (split_into_sentences seg text)
    generalize hM : (split_into_sentences seg text).length *
      ((split_into_sentences seg text).length - 1) = M at hlen ⊢
    omega

/-- C4 witness: the two-sentence segmentation with a neutral oracle. -/
theorem analyze_pair_enumeration_witness :
    (analyze_cross_section (init_contexts noSyn) segTwo neutralOrc "doc").consistency_results =
      (canonicalCombinations (split_into_sentences segTwo "doc")).map
        (fun p => check_consistency (init_contexts noSyn) neutralOrc p.1 p.2) ∧
    (analyze_cross_section (init_contexts noSyn) segTwo neutralOrc "doc").consistency_results.length =
      (split_into_sentences segTwo "doc").length *
        ((split_into_sentences segTwo "doc").length - 1) / 2 :=
  analyze_pair_enumeration (init_contexts noSyn) segTwo neutralOrc "doc" (by decide)


theorem listPrefixOf_self_append : ∀ (p q : List Char), listPrefixOf p (p ++ q) = true := by
  intro p q
  induction p with
  | nil => rfl
  | cons c cs ih => simp [listPrefixOf, ih]

theorem listPrefixOf_cancel (a : List Char) {p q : List Char}
    (h : listPrefixOf p q = true) : listPrefixOf (a ++ p) (a ++ q) = true := by
  induction a with
  | nil => simpa using h
  | cons c cs ih => simp [listPrefixOf, ih]

theorem detectLoop_find_some (s1 s2 : String) (n1 n2 : List Dec) :
    ∀ (cs : List SemContext) (c : SemContext),
      cs.find? (fun c => contextTrigger c s1 s2 n1 n2) = some c →
      detectLoop s1 s2 n1 n2 cs =
        ⟨true, "Numeric mismatch in " ++ c.name ++ " context: " ++ setRepr n1 ++
               " vs " ++ setRepr n2⟩ := by
  intro cs
  induction cs with
  | nil => intro c h; simp at h
  | cons a as ih =>
    intro c h
    by_cases ha : contextTrigger a s1 s2 n1 n2
    · rw [@List.find?_cons_of_pos _ (fun c => contextTrigger c s1 s2 n1 n2) a as ha] at h
      injection h with h
      subst h
      unfold detectLoop
      rw [if_pos ha]
    · rw [@List.find?_cons_of_neg _ (fun c => contextTrigger c s1 s2 n1 n2) a as ha] at h
      unfold detectLoop
      rw [if_neg ha]
      exact ih c h

theorem detectLoop_find_none (s1 s2 : String) (n1 n2 : List Dec) :
    ∀ (cs : List SemContext),
      cs.find? (fun c => contextTrigger c s1 s2 n1 n2) = none →
      detectLoop s1 s2 n1 n2 cs = ⟨false, "No contextual numeric mismatch detected"⟩ := by
  intro cs
  induction cs with
  | nil => intro _; rfl
  | cons a as ih =>
    intro h
    by_cases ha : contextTrigger a s1 s2 n1 n2
    · rw [@List.find?_cons_of_pos _ (fun c => contextTrigger c s1 s2 n1 n2) a as ha] at h
      cases h
    · rw [@List.find?_cons_of_neg _ (fun c => contextTrigger c s1 s2 n1 n2) a as ha] at h
      unfold detectLoop
      rw [if_neg ha]
      exact ih h

/-- C3 (confirmed): with both converted numeric lists non-empty,
`detect_numeric_mismatch` iterates the fixed domain order financial,
temporal, performance; the first domain whose trigger (both sentences
have context and the value sets differ) fires yields `mismatch = true`
with that domain named in the reason and no later domain is evaluated
(`List.find?` semantics); if no domain fires the result is the fixed
no-mismatch record. -/
theorem detect_domain_priority (syn : String → List String) (s1 s2 : String)
    (h1 : numsConv s1 ≠ []) (h2 : numsConv s2 ≠ []) :
    (init_contexts syn).map SemContext.name = ["financial", "temporal", "performance"] ∧
    (match (init_contexts syn).find?
        (fun c => contextTrigger c s1 s2 (numsConv s1) (numsConv s2)) with
     | some c =>
        (detect_numeric_mismatch (init_contexts syn) s1 s2).mismatch = true ∧
        strPrefixOf ("Numeric mismatch in " ++ c.name ++ " context:")
          (detect_numeric_mismatch (init_contexts syn) s1 s2).reason = true
     | none =>
        detect_numeric_mismatch (init_contexts syn) s1 s2 =
          ⟨false, "No contextual numeric mismatch detected"⟩) := by
  refine ⟨rfl, ?_⟩
  have he1 : (numsConv s1).isEmpty = false := by
    cases hx : numsConv s1 with
    | nil => exact absurd hx h1
    | cons a l => rfl
  have he2 : (numsConv s2).isEmpty = false := by
    cases hx : numsConv s2 with
    | nil => exact absurd hx h2
    | cons a l => rfl
  have hdet : detect_numeric_mismatch (init_contexts syn) s1 s2 =
      detectLoop s1 s2 (numsConv s1) (numsConv s2) (init_contexts syn) := by
    unfold detect_numeric_mismatch
    dsimp only
    rw [he1, he2]
    rfl
  cases hf : (init_contexts syn).find?
      (fun c => contextTrigger c s1 s2 (numsConv s1) (numsConv s2)) with
  | none =>
    dsimp only
    rw [hdet, detectLoop_find_none s1 s2 (numsConv s1) (numsConv s2) _ hf]
  | some c =>
    dsimp only
    rw [hdet, detectLoop_find_some s1 s2 (numsConv s1) (numsConv s2) _ c hf]
    refine ⟨rfl, ?_⟩
    unfold strPrefixOf
    have hsp : (" context: ").data = (" context:").data ++ [' '] := by decide
    simp only [String.data_append, hsp, List.append_assoc]
    apply listPrefixOf_cancel
    apply listPrefixOf_cancel
    exact listPrefixOf_self_append _ _

/-- C3 witness: Scenario A sentences, where the financial domain
fires. -/
theorem detect_domain_priority_witness :
    (init_contexts noSyn).map SemContext.name = ["financial", "temporal", "performance"] ∧
    (match (init_contexts noSyn).find?
        (fun c => contextTrigger c "The budget is $5,000." "The total budget is $6,000."
          (numsConv "The budget is $5,000.") (numsConv "The total budget is $6,000.")) with
     | some c =>
        (detect_numeric_mismatch (init_contexts noSyn) "The budget is $5,000."
            "The total budget is $6,000.").mismatch = true ∧
        strPrefixOf ("Numeric mismatch in " ++ c.name ++ " context:")
          (detect_numeric_mismatch (init_contexts noSyn) "The budget is $5,000."
            "The total budget is $6,000.").reason = true
     | none =>
        detect_numeric_mismatch (init_contexts noSyn) "The budget is $5,000."
            "The total budget is $6,000." =
          ⟨false, "No contextual numeric mismatch detected"⟩) :=
  detect_domain_priority noSyn "The budget is $5,000." "The total budget is $6,000."
    (by decide) (by decide)


theorem listPrefixOf_extend : ∀ (p l m : List Char), listPrefixOf p l = true →
    listPrefixOf p (l ++ m) = true := by
  intro p
  induction p with
  | nil => intro l m _; rfl
  | cons c cs ih =>
    intro l m h
    cases l with
    | nil => simp [listPrefixOf] at h
    | cons d ds =>
      simp only [listPrefixOf, Bool.and_eq_true] at h ⊢
      exact ⟨h.1, ih ds m h.2⟩

theorem listContains_nil_pat : ∀ (l : List Char), listContains [] l = true := by
  intro l
  cases l with
  | nil => rfl
  | cons c cs => simp [listContains, listPrefixOf]

theorem listContains_append_left (pat : List Char) :
    ∀ (a b : List Char), listContains pat a = true → listContains pat (a ++ b) = true := by
  intro a
  induction a with
  | nil =>
    intro b h
    have hp : pat = [] := by
      cases pat with
      | nil => rfl
      | cons p ps => simp [listContains, listPrefixOf] at h
    subst hp
    exact listContains_nil_pat b
  | cons c cs ih =>
    intro b h
    simp only [listContains, Bool.or_eq_true] at h ⊢
    rcases h with h | h
    · exact Or.inl (listPrefixOf_extend pat (c :: cs) b h)
    · exact Or.inr (ih b h)

theorem strContains_pyJoin_head (sep hd : String) (t : List String) (pat : String)
    (hh : strContains hd pat = true) : strContains (pyJoin sep (hd :: t)) pat = true := by
  cases t with
  | nil => exact hh
  | cons y ys =>
    show strContains (hd ++ sep ++ pyJoin sep (y :: ys)) pat = true
    unfold strContains
    rw [String.data_append, String.data_append, List.append_assoc]
    exact listContains_append_left pat.data hd.data _ hh

theorem check_flag_iff (ctxs : List SemContext) (orc : String → Option (String × ℚ))
    (s1 s2 : String) :
    contradictionFlag (check_consistency ctxs orc s1 s2) = true ↔
      ((check_consistency ctxs orc s1 s2).verdict = Verdict.NUMERIC_MISMATCH ∨
       (check_consistency ctxs orc s1 s2).verdict = Verdict.LOGICAL_CONTRADICTION) := by
  unfold check_consistency
  cases horc : orc (combined_input s1 s2) with
  | none =>
    dsimp only
    simp [contradictionFlag]
  | some ls =>
    dsimp only
    split_ifs with h1 h2 h3 <;> simp [contradictionFlag, h1]

theorem isEmpty_false_of_ne {α : Type} {l : List α} (h : l ≠ []) : l.isEmpty = false := by
  cases l with
  | nil => exact absurd rfl h
  | cons a as => rfl

/-- C5 (confirmed): a pair is in the contradictions subset iff its
verdict is NUMERIC_MISMATCH or LOGICAL_CONTRADICTION; the literal
marker phrase "Inconsistencies detected" occurs in the issues report
iff that subset is non-empty; and when it is non-empty the report is
the join of the header, then the numeric section, then the logical
section, each section listing its issues in results order (a filter of
the results sequence) with both source sentences quoted verbatim in
each line. -/
theorem report_contract (ctxs : List SemContext) (seg : String → List String)
    (orc : String → Option (String × ℚ)) (text : String) :
    (∀ r ∈ (analyze_cross_section ctxs seg orc text).consistency_results,
        (contradictionFlag r = true ↔
          (r.verdict = Verdict.NUMERIC_MISMATCH ∨ r.verdict = Verdict.LOGICAL_CONTRADICTION))) ∧
    (strContains (analyze_cross_section ctxs seg orc text).issues_report
        "Inconsistencies detected" = true ↔
      (analyze_cross_section ctxs seg orc text).consistency_results.filter contradictionFlag ≠ []) ∧
    ((analyze_cross_section ctxs seg orc text).consistency_results.filter contradictionFlag ≠ [] →
      (analyze_cross_section ctxs seg orc text).issues_report =
        pyJoin "\n" (["⚠️ Inconsistencies detected:"]
          ++ (if ((analyze_cross_section ctxs seg orc text).consistency_results.filter
                (fun c => c.numeric_analysis.mismatch)).isEmpty then []
              else "\n🔢 Numeric Inconsistencies:" ::
                ((analyze_cross_section ctxs seg orc text).consistency_results.filter
                  (fun c => c.numeric_analysis.mismatch)).map numericIssueLine)
          ++ (if ((analyze_cross_section ctxs seg orc text).consistency_results.filter
                (fun c => c.label == "CONTRADICTION" && !c.numeric_analysis.mismatch)).isEmpty then []
              else "\n❌ Logical Contradictions:" ::
                ((analyze_cross_section ctxs seg orc text).consistency_results.filter
                  (fun c => c.label == "CONTRADICTION" && !c.numeric_analysis.mismatch)).map
                    logicalIssueLine))) := by
  unfold analyze_cross_section
  by_cases hs : (split_into_sentences seg text).length < 2
  · rw [if_pos hs]
    exact ⟨by simp, by decide, by simp⟩
  · rw [if_neg hs]
    dsimp only
    refine ⟨?_, ?_, ?_⟩
    · intro r hr
      rcases List.mem_map.mp hr with ⟨p, _, rfl⟩
      exact check_flag_iff ctxs orc p.1 p.2
    · by_cases hc : ((pairsComb (split_into_sentences seg text)).map
          (fun p => check_consistency ctxs orc p.1 p.2)).filter contradictionFlag = []
      · rw [hc]
        unfold buildSummary
        exact iff_of_false (by decide) (by simp)
      · unfold buildSummary
        rw [isEmpty_false_of_ne hc]
        simp only [Bool.false_eq_true, if_false]
        simp only [List.singleton_append, List.cons_append]
        exact iff_of_true (strContains_pyJoin_head "\n" _ _ _ (by decide)) hc
    · intro hne
      unfold buildSummary
      rw [isEmpty_false_of_ne hne]
      simp only [Bool.false_eq_true, if_false]
      rw [List.filter_filter, List.filter_filter]
      have h1 : (fun c : PairResult => c.numeric_analysis.mismatch && contradictionFlag c) =
          fun c : PairResult => c.numeric_analysis.mismatch := by
        funext c
        cases hm : c.numeric_analysis.mismatch <;> simp [contradictionFlag, hm]
      have h2 : (fun c : PairResult =>
            (c.label == "CONTRADICTION" && !c.numeric_analysis.mismatch) && contradictionFlag c) =
          fun c : PairResult => c.label == "CONTRADICTION" && !c.numeric_analysis.mismatch := by
        funext c
        cases hm : c.numeric_analysis.mismatch <;>
          cases hl : (c.label == "CONTRADICTION") <;> simp [contradictionFlag, hm, hl]
      rw [h1, h2]

/-- C5 witness: the marker-iff-contradictions equivalence at a concrete
two-sentence run. -/
theorem report_contract_witness :
    strContains (analyze_cross_section (init_contexts noSyn) segTwo failOrc "doc").issues_report
      "Inconsistencies detected" = true ↔
    (analyze_cross_section (init_contexts noSyn) segTwo failOrc "doc").consistency_results.filter
      contradictionFlag ≠ [] :=
  (report_contract (init_contexts noSyn) segTwo failOrc "doc").2.1


theorem tryPlain_eq_none (cs : List Char) (h : ∀ c ∈ cs, c.isDigit = false) :
    tryPlain cs = none := by
  cases cs with
  | nil => rfl
  | cons c t =>
    have hc := h c (List.mem_cons_self c t)
    simp [tryPlain, List.takeWhile_cons, hc]

theorem tryPercent_eq_none (cs : List Char) (h : ∀ c ∈ cs, c.isDigit = false) :
    tryPercent cs = none := by
  cases cs with
  | nil => rfl
  | cons c t =>
    have hc := h c (List.mem_cons_self c t)
    simp [tryPercent, List.takeWhile_cons, hc]

theorem tryCurrency_eq_none (sym : Char) (cs : List Char)
    (h : ∀ c ∈ cs, c.isDigit = false) : tryCurrency sym cs = none := by
  cases cs with
  | nil => rfl
  | cons c t =>
    unfold tryCurrency
    dsimp only
    by_cases hc : (c == sym) = true
    · rw [if_pos hc, tryPlain_eq_none t (fun x hx => h x (List.mem_cons_of_mem c hx))]
      rfl
    · rw [if_neg hc]

theorem scanWith_nil_matcher (m : List Char → Option (List Char))
    (hnone : ∀ cs, (∀ c ∈ cs, c.isDigit = false) → m cs = none) :
    ∀ cs, (∀ c ∈ cs, c.isDigit = false) → scanWith m cs = [] := by
  intro cs
  induction cs with
  | nil => intro _; rfl
  | cons c t ih =>
    intro h
    rw [scanWith_cons, hnone (c :: t) h]
    exact ih (fun x hx => h x (List.mem_cons_of_mem c hx))

theorem extract_numbers_nil (s : String) (h : ∀ c ∈ s.toList, c.isDigit = false) :
    extract_numbers s = [] := by
  have e1 := scanWith_nil_matcher tryPlain tryPlain_eq_none s.toList h
  have e2 := scanWith_nil_matcher tryPercent tryPercent_eq_none s.toList h
  have e3 := scanWith_nil_matcher (tryCurrency '$') (tryCurrency_eq_none '$') s.toList h
  have e4 := scanWith_nil_matcher (tryCurrency '€') (tryCurrency_eq_none '€') s.toList h
  have e5 := scanWith_nil_matcher (tryCurrency '£') (tryCurrency_eq_none '£') s.toList h
  simp only [String.toList] at e1 e2 e3 e4 e5
  simp [extract_numbers, numPatterns, e1, e2, e3, e4, e5]

/-- C10 (confirmed): when neither sentence contains a digit character
(numeric content only as spelled-out words), every extraction pattern
finds nothing, so the detector returns mismatch false with reason
"No numbers to compare" — the word-to-number mapping of the normalizer
is unreachable through the pair pipeline. -/
theorem detect_no_digits (ctxs : List SemContext) (s1 s2 : String)
    (h1 : ∀ c ∈ s1.toList, c.isDigit = false) (h2 : ∀ c ∈ s2.toList, c.isDigit = false) :
    detect_numeric_mismatch ctxs s1 s2 = ⟨false, "No numbers to compare"⟩ ∧
    extract_numbers s1 = [] ∧ extract_numbers s2 = [] := by
  have e1 := extract_numbers_nil s1 h1
  have e2 := extract_numbers_nil s2 h2
  refine ⟨?_, e1, e2⟩
  have hn1 : numsConv s1 = [] := by unfold numsConv; rw [e1]; rfl
  have hn2 : numsConv s2 = [] := by unfold numsConv; rw [e2]; rfl
  unfold detect_numeric_mismatch
  rw [hn1, hn2]
  rfl

/-- C10 witness: two digit-free sentences with spelled-out numbers. -/
theorem detect_no_digits_witness :
    detect_numeric_mismatch (init_contexts noSyn) "The budget is two thousand dollars."
        "The budget is three thousand dollars." =
      ⟨false, "No numbers to compare"⟩ ∧
    extract_numbers "The budget is two thousand dollars." = [] ∧
    extract_numbers "The budget is three thousand dollars." = [] :=
  detect_no_digits (init_contexts noSyn) "The budget is two thousand dollars."
    "The budget is three thousand dollars." (by decide) (by decide)


theorem toLower_digit (c : Char) (h : c.isDigit = true) : c.toLower = c := by
  rw [Char.isDigit] at h
  rw [Bool.and_eq_true] at h
  obtain ⟨h1, h2⟩ := h
  rw [decide_eq_true_eq] at h2
  have h2n : c.val.toNat ≤ 57 := h2
  unfold Char.toLower
  rw [if_neg]
  rintro ⟨ha, hb⟩
  have : Char.toNat c = c.val.toNat := rfl
  omega

theorem digit_not_whitespace (c : Char) (h : c.isDigit = true) : c.isWhitespace = false := by
  rw [Char.isDigit] at h
  rw [Bool.and_eq_true] at h
  obtain ⟨h1, h2⟩ := h
  rw [decide_eq_true_eq] at h1 h2
  have h1n : 48 ≤ c.val.toNat := h1
  have h2n : c.val.toNat ≤ 57 := h2
  rw [Char.isWhitespace]
  have hch : ∀ (x : Char), x.val.toNat < 48 → (c = x) = False := by
    intro x hx
    simp only [eq_iff_iff, iff_false]
    intro he
    subst he
    omega
  simp [hch ' ' (by decide), hch '\t' (by decide), hch '\r' (by decide), hch '\n' (by decide)]

theorem digit_ne (c x : Char) (hc : c.isDigit = true) (hx : x.isDigit = false) :
    (c == x) = false := by
  rw [beq_eq_false_iff_ne]
  intro he
  rw [he] at hc
  rw [hc] at hx
  cases hx

theorem dropWhile_id_of_none {p : Char → Bool} : ∀ (l : List Char),
    (∀ c ∈ l, p c = false) → l.dropWhile p = l := by
  intro l h
  cases l with
  | nil => rfl
  | cons c t => simp [List.dropWhile_cons, h c (List.mem_cons_self c t)]

theorem stripChars_id (l : List Char) (h : ∀ c ∈ l, c.isWhitespace = false) :
    stripChars l = l := by
  unfold stripChars
  rw [dropWhile_id_of_none l h, dropWhile_id_of_none l.reverse
    (fun c hc => h c (List.mem_reverse.mp hc)), List.reverse_reverse]

theorem numberWords_find_none (d : Char) (rest : List Char) (hd : d.isDigit = true) :
    number_words.find? (fun p => p.1 == String.mk (d :: rest)) = none := by
  rw [List.find?_eq_none]
  intro x hx
  simp only [number_words, List.mem_cons, List.not_mem_nil, or_false] at hx
  rcases hx with rfl|rfl|rfl|rfl|rfl|rfl|rfl|rfl|rfl|rfl|rfl|rfl|rfl|rfl|rfl <;>
    · intro hq
      dsimp only at hq
      rw [beq_iff_eq] at hq
      have h2 := congrArg (fun s : String => s.data.head?.all (fun c => !c.isDigit)) hq
      dsimp only at h2
      rw [show ((String.mk (d :: rest)).data.head?.all (fun c => !c.isDigit)) = !d.isDigit
        from rfl, hd, Bool.not_true] at h2
      exact absurd h2 (by decide)

theorem takeWhile_digits (ds : List Char) (hds : ∀ c ∈ ds, c.isDigit = true) :
    ds.takeWhile Char.isDigit = ds ∧ ds.dropWhile Char.isDigit = [] := by
  induction ds with
  | nil => exact ⟨rfl, rfl⟩
  | cons c t ih =>
    have hc := hds c (List.mem_cons_self c t)
    have iht := ih (fun x hx => hds x (List.mem_cons_of_mem c hx))
    simp [List.takeWhile_cons, List.dropWhile_cons, hc, iht.1, iht.2]

theorem takeWhile_digits_stop (ds : List Char) (x : Char) (suf : List Char)
    (hds : ∀ c ∈ ds, c.isDigit = true) (hx : x.isDigit = false) :
    (ds ++ x :: suf).takeWhile Char.isDigit = ds ∧
    (ds ++ x :: suf).dropWhile Char.isDigit = x :: suf := by
  induction ds with
  | nil => simp [List.takeWhile_cons, List.dropWhile_cons, hx]
  | cons c t ih =>
    have hc := hds c (List.mem_cons_self c t)
    have iht := ih (fun y hy => hds y (List.mem_cons_of_mem c hy))
    simp [List.takeWhile_cons, List.dropWhile_cons, hc, iht.1, iht.2]

theorem pyFloat_digits (ds : List Char) (hne : ds ≠ [])
    (hds : ∀ c ∈ ds, c.isDigit = true) :
    pyFloatOfChars? ds = some ⟨(digitsToNat ds : ℤ), 0⟩ := by
  have hsc : stripChars ds = ds :=
    stripChars_id ds (fun c hc => digit_not_whitespace c (hds c hc))
  have htw := takeWhile_digits ds hds
  obtain ⟨d, t, rfl⟩ : ∃ d t, ds = d :: t := by
    cases ds with
    | nil => exact absurd rfl hne
    | cons d t => exact ⟨d, t, rfl⟩
  have hd := hds d (List.mem_cons_self d t)
  have hplus : ((some d : Option Char) == some '+') = false := by
    rw [beq_eq_false_iff_ne]
    intro h
    injection h with h
    rw [h] at hd
    exact absurd hd (by decide)
  have hminus : ((some d : Option Char) == some '-') = false := by
    rw [beq_eq_false_iff_ne]
    intro h
    injection h with h
    rw [h] at hd
    exact absurd hd (by decide)
  unfold pyFloatOfChars?
  rw [hsc]
  dsimp only [List.head?]
  rw [hplus, hminus]
  simp only [Bool.or_false, Bool.false_eq_true, if_false]
  rw [htw.1, htw.2]
  dsimp only [List.head?]
  rw [isEmpty_false_of_ne hne]
  simp [Dec.ofNat, Dec.add, digitsToNat]

theorem map_toLower_digits : ∀ (l : List Char), (∀ c ∈ l, c.isDigit = true) →
    l.map Char.toLower = l := by
  intro l hl
  induction l with
  | nil => rfl
  | cons c t ih =>
    rw [List.map_cons, toLower_digit c (hl c (List.mem_cons_self c t)),
        ih (fun x hx => hl x (List.mem_cons_of_mem c hx))]

theorem currency_pred_digits : ∀ (c : Char), c.isDigit = true →
    (!(c == '$' || c == '€' || c == '£' || c == ',')) = true := by
  intro c hc
  rw [digit_ne c '$' hc (by decide), digit_ne c '€' hc (by decide),
      digit_ne c '£' hc (by decide), digit_ne c ',' hc (by decide)]
  rfl

theorem contains_percent_false : ∀ (l : List Char), (∀ c ∈ l, c.isDigit = true) →
    l.contains '%' = false := by
  intro l hl
  induction l with
  | nil => rfl
  | cons c t ih =>
    simp only [List.contains_cons]
    rw [ih (fun x hx => hl x (List.mem_cons_of_mem c hx))]
    have : ('%' == c) = false := by
      rw [beq_eq_false_iff_ne]
      intro h
      have := hl c (List.mem_cons_self c t)
      rw [← h] at this
      exact absurd this (by decide)
    rw [this]
    rfl

theorem convert_digits (ds : List Char) (hne : ds ≠ [])
    (hds : ∀ c ∈ ds, c.isDigit = true) :
    convert_to_number (String.mk ds) = some ⟨(digitsToNat ds : ℤ), 0⟩ := by
  have hlow : pyLower (String.mk ds) = String.mk ds := by
    unfold pyLower
    rw [show (String.mk ds).toList = ds from rfl, map_toLower_digits ds hds]
  have hstrip : pyStrip (String.mk ds) = String.mk ds := by
    unfold pyStrip
    rw [show (String.mk ds).toList = ds from rfl,
        stripChars_id ds (fun c hc => digit_not_whitespace c (hds c hc))]
  obtain ⟨d, t, rfl⟩ : ∃ d t, ds = d :: t := by
    cases ds with
    | nil => exact absurd rfl hne
    | cons d t => exact ⟨d, t, rfl⟩
  unfold convert_to_number
  rw [hlow, hstrip]
  dsimp only
  rw [numberWords_find_none d t (hds d (List.mem_cons_self d t))]
  dsimp only
  rw [show (String.mk (d :: t)).toList = d :: t from rfl]
  rw [List.filter_eq_self.mpr (fun c hc => currency_pred_digits c (hds c hc))]
  rw [contains_percent_false (d :: t) hds]
  simp only [Bool.false_eq_true, if_false]
  exact pyFloat_digits (d :: t) hne hds

theorem contains_percent_append : ∀ (l : List Char), (l ++ ['%']).contains '%' = true := by
  intro l
  induction l with
  | nil => decide
  | cons c t ih => simp [List.contains_cons, ih]

theorem convert_digits_percent (ds : List Char) (hne : ds ≠ [])
    (hds : ∀ c ∈ ds, c.isDigit = true) :
    convert_to_number (String.mk (ds ++ ['%'])) = some ⟨(digitsToNat ds : ℤ), 2⟩ := by
  have hall : ∀ c ∈ ds ++ ['%'], c.isDigit = true ∨ c = '%' := by
    intro c hc
    rcases List.mem_append.mp hc with h | h
    · exact Or.inl (hds c h)
    · simp at h
      exact Or.inr h
  have hlow : pyLower (String.mk (ds ++ ['%'])) = String.mk (ds ++ ['%']) := by
    unfold pyLower
    rw [show (String.mk (ds ++ ['%'])).toList = ds ++ ['%'] from rfl, List.map_append,
        map_toLower_digits ds hds]
    simp [show Char.toLower '%' = '%' from by decide]
  have hstrip : pyStrip (String.mk (ds ++ ['%'])) = String.mk (ds ++ ['%']) := by
    unfold pyStrip
    rw [show (String.mk (ds ++ ['%'])).toList = ds ++ ['%'] from rfl]
    rw [stripChars_id (ds ++ ['%'])]
    intro c hc
    rcases hall c hc with h | h
    · exact digit_not_whitespace c h
    · rw [h]
      decide
  obtain ⟨d, t, rfl⟩ : ∃ d t, ds = d :: t := by
    cases ds with
    | nil => exact absurd rfl hne
    | cons d t => exact ⟨d, t, rfl⟩
  unfold convert_to_number
  rw [hlow, hstrip]
  dsimp only
  rw [show (d :: t) ++ ['%'] = d :: (t ++ ['%']) from rfl] at hall ⊢
  rw [numberWords_find_none d (t ++ ['%']) (hds d (List.mem_cons_self d t))]
  dsimp only
  rw [show (String.mk (d :: (t ++ ['%']))).toList = d :: (t ++ ['%']) from rfl]
  have hfilcur : (d :: (t ++ ['%'])).filter
      (fun c => !(c == '$' || c == '€' || c == '£' || c == ',')) = d :: (t ++ ['%']) := by
    apply List.filter_eq_self.mpr
    intro c hc
    rcases hall c hc with h | h
    · exact currency_pred_digits c h
    · rw [h]
      decide
  rw [hfilcur]
  rw [show (d :: (t ++ ['%'])) = (d :: t) ++ ['%'] from rfl, contains_percent_append (d :: t)]
  simp only [if_true]
  have hfilpct : ((d :: t) ++ ['%']).filter (fun c => !(c == '%')) = d :: t := by
    rw [List.filter_append]
    have h1 : (d :: t).filter (fun c => !(c == '%')) = d :: t :=
      List.filter_eq_self.mpr (fun c hc => by
        rw [digit_ne c '%' (hds c hc) (by decide)]
        rfl)
    rw [h1]
    simp
  rw [hfilpct, pyFloat_digits (d :: t) hne hds]
  simp [Dec.divPow10]

theorem tryPlain_none_head (c : Char) (t : List Char) (hc : c.isDigit = false) :
    tryPlain (c :: t) = none := by
  simp [tryPlain, List.takeWhile_cons, hc]

theorem tryPercent_none_head (c : Char) (t : List Char) (hc : c.isDigit = false) :
    tryPercent (c :: t) = none := by
  simp [tryPercent, List.takeWhile_cons, hc]

theorem scanWith_skip (m : List Char → Option (List Char))
    (hm : ∀ (c : Char) (t : List Char), c.isDigit = false → c ≠ '$' → c ≠ '€' → c ≠ '£' →
      m (c :: t) = none) :
    ∀ (pre rest : List Char),
      (∀ c ∈ pre, c.isDigit = false ∧ c ≠ '$' ∧ c ≠ '€' ∧ c ≠ '£') →
      scanWith m (pre ++ rest) = scanWith m rest := by
  intro pre
  induction pre with
  | nil => intro rest _; rfl
  | cons c p ih =>
    intro rest h
    obtain ⟨h1, h2, h3, h4⟩ := h c (List.mem_cons_self c p)
    rw [List.cons_append, scanWith_cons, hm c (p ++ rest) h1 h2 h3 h4]
    exact ih rest (fun x hx => h x (List.mem_cons_of_mem c hx))

theorem commaGroups_percent (suf : List Char) : commaGroups ('%' :: suf) = ([], '%' :: suf) := rfl

theorem fracPart_percent (suf : List Char) : fracPart ('%' :: suf) = ([], '%' :: suf) := rfl

theorem tryPlain_digits_percent (ds suf : List Char) (hne : ds ≠ [])
    (hds : ∀ c ∈ ds, c.isDigit = true) :
    tryPlain (ds ++ '%' :: suf) = some ds := by
  have htw := takeWhile_digits_stop ds '%' suf hds (by decide)
  unfold tryPlain
  rw [htw.1, htw.2]
  dsimp only
  rw [isEmpty_false_of_ne hne]
  simp only [Bool.false_eq_true, if_false]
  rw [commaGroups_percent]
  dsimp only
  rw [fracPart_percent]
  simp

theorem tryPercent_digits (ds suf : List Char) (hne : ds ≠ [])
    (hds : ∀ c ∈ ds, c.isDigit = true) :
    tryPercent (ds ++ '%' :: suf) = some (ds ++ ['%']) := by
  have htw := takeWhile_digits_stop ds '%' suf hds (by decide)
  unfold tryPercent
  rw [htw.1, htw.2]
  dsimp only
  rw [isEmpty_false_of_ne hne]
  simp only [Bool.false_eq_true, if_false]
  rw [fracPart_percent]
  simp

/-- C9 (corrected): when the digits of a `<digits>%` token are preceded
only by characters that are neither digits nor currency symbols, the
sentence's converted numeric list contains both the bare value of the
digits (matched by the plain-number pattern) and the value divided by
100 (matched by the percentage pattern).  The claim's unrestricted
universal fails: a longer plain-number match can absorb the digits (see
`percent_token_absorbed_counterexample`). -/
theorem percent_token_values (pre ds suf : List Char) (hne : ds ≠ [])
    (hds : ∀ c ∈ ds, c.isDigit = true)
    (hpre : ∀ c ∈ pre, c.isDigit = false ∧ c ≠ '$' ∧ c ≠ '€' ∧ c ≠ '£') :
    (∃ a ∈ numsConv (String.mk (pre ++ (ds ++ '%' :: suf))),
      a.val = (digitsToNat ds : ℚ)) ∧
    (∃ b ∈ numsConv (String.mk (pre ++ (ds ++ '%' :: suf))),
      b.val = (digitsToNat ds : ℚ) / 100) := by
  have hmp : ∀ (c : Char) (t : List Char), c.isDigit = false → c ≠ '$' → c ≠ '€' → c ≠ '£' →
      tryPlain (c :: t) = none := fun c t h1 _ _ _ => tryPlain_none_head c t h1
  have hmq : ∀ (c : Char) (t : List Char), c.isDigit = false → c ≠ '$' → c ≠ '€' → c ≠ '£' →
      tryPercent (c :: t) = none := fun c t h1 _ _ _ => tryPercent_none_head c t h1
  obtain ⟨d, t, rfl⟩ : ∃ d t, ds = d :: t := by
    cases ds with
    | nil => exact absurd rfl hne
    | cons d t => exact ⟨d, t, rfl⟩
  have hsl : (String.mk (pre ++ ((d :: t) ++ '%' :: suf))).toList =
      pre ++ ((d :: t) ++ '%' :: suf) := rfl
  have hplainmem : (d :: t) ∈ scanWith tryPlain
      (String.mk (pre ++ ((d :: t) ++ '%' :: suf))).toList := by
    rw [hsl, scanWith_skip tryPlain hmp pre _ hpre]
    rw [show (d :: t) ++ '%' :: suf = d :: (t ++ '%' :: suf) from rfl, scanWith_cons]
    rw [show tryPlain (d :: (t ++ '%' :: suf)) = some (d :: t) from
      tryPlain_digits_percent (d :: t) suf hne hds]
    exact List.mem_cons_self _ _
  have hpctmem : ((d :: t) ++ ['%']) ∈ scanWith tryPercent
      (String.mk (pre ++ ((d :: t) ++ '%' :: suf))).toList := by
    rw [hsl, scanWith_skip tryPercent hmq pre _ hpre]
    rw [show (d :: t) ++ '%' :: suf = d :: (t ++ '%' :: suf) from rfl, scanWith_cons]
    rw [show tryPercent (d :: (t ++ '%' :: suf)) = some ((d :: t) ++ ['%']) from
      tryPercent_digits (d :: t) suf hne hds]
    exact List.mem_cons_self _ _
  have hexp : String.mk (d :: t) ∈
      extract_numbers (String.mk (pre ++ ((d :: t) ++ '%' :: suf))) := by
    unfold extract_numbers numPatterns
    apply List.mem_flatMap.mpr
    refine ⟨tryPlain, by simp, ?_⟩
    exact List.mem_map.mpr ⟨d :: t, hplainmem, rfl⟩
  have hexq : String.mk ((d :: t) ++ ['%']) ∈
      extract_numbers (String.mk (pre ++ ((d :: t) ++ '%' :: suf))) := by
    unfold extract_numbers numPatterns
    apply List.mem_flatMap.mpr
    refine ⟨tryPercent, by simp, ?_⟩
    exact List.mem_map.mpr ⟨(d :: t) ++ ['%'], hpctmem, rfl⟩
  constructor
  · refine ⟨⟨(digitsToNat (d :: t) : ℤ), 0⟩, ?_, ?_⟩
    · exact List.mem_filterMap.mpr ⟨String.mk (d :: t), hexp, convert_digits (d :: t) hne hds⟩
    · simp [Dec.val]
  · refine ⟨⟨(digitsToNat (d :: t) : ℤ), 2⟩, ?_, ?_⟩
    · exact List.mem_filterMap.mpr
        ⟨String.mk ((d :: t) ++ ['%']), hexq, convert_digits_percent (d :: t) hne hds⟩
    · simp only [Dec.val]
      push_cast
      norm_num

/-- C9 counterexample: in `"1,234%"` the percentage pattern extracts
the token `"234%"` (of the form `<digits>%`), but the plain-number
pattern matches `"1,234"`, so the converted values are 1234.0 and 2.34
and the bare number 234.0 of the token's digits is absent. -/
theorem percent_token_absorbed_counterexample :
    "234%" ∈ extract_numbers "1,234%" ∧
    (numsConv "1,234%").map Dec.val = [(1234 : ℚ), 117 / 50] ∧
    (234 : ℚ) ∉ (numsConv "1,234%").map Dec.val := by
  refine ⟨by decide, ?_, ?_⟩
  · rw [show numsConv "1,234%" = [⟨1234, 0⟩, ⟨234, 2⟩] from by decide]
    simp [Dec.val]
    norm_num
  · rw [show numsConv "1,234%" = [⟨1234, 0⟩, ⟨234, 2⟩] from by decide]
    simp only [List.map_cons, List.map_nil, Dec.val, List.mem_cons]
    push_cast
    norm_num

/-- C9 witness: `"Growth was 45% this year."`, whose numeric list
contains both 45.0 and 0.45. -/
theorem percent_token_values_witness :
    (∃ a ∈ numsConv (String.mk ("Growth was ".toList ++
        (['4', '5'] ++ '%' :: " this year.".toList))),
      a.val = (digitsToNat ['4', '5'] : ℚ)) ∧
    (∃ b ∈ numsConv (String.mk ("Growth was ".toList ++
        (['4', '5'] ++ '%' :: " this year.".toList))),
      b.val = (digitsToNat ['4', '5'] : ℚ) / 100) :=
  percent_token_values "Growth was ".toList ['4', '5'] " this year.".toList
    (by decide) (by decide) (by decide)

end ConsistencyModel
